import Mathlib

/-!
Shallow embedding of the IDvision simulation core: the tween-style animation
scheduler (`Engine` from the unnamed engine source file) and the rigid-body
physics integrator (`Physics` from `src/physics.ts`).  Numbers are modelled by
`ℚ`; `THREE.Vector3` by a record of three rationals; `THREE.Object3D`
references by natural-number handles into an explicit store, so that the
reference equality (`===`) of the source becomes equality of handles and
in-place mutation becomes store update.
-/

namespace IDvision

/-- Model of `THREE.Vector3`: three rational components. -/
structure Vec3 where
  x : ℚ
  y : ℚ
  z : ℚ
deriving DecidableEq, Repr

/-- `Vector3.add`: component-wise sum. -/
def Vec3.add (a b : Vec3) : Vec3 :=
  ⟨a.x + b.x, a.y + b.y, a.z + b.z⟩

/-- `Vector3.multiplyScalar`. -/
def Vec3.mulScalar (a : Vec3) (s : ℚ) : Vec3 :=
  ⟨a.x * s, a.y * s, a.z * s⟩

/-- `Vector3.addScaledVector`: `a + b * s` component-wise. -/
def Vec3.addScaled (a b : Vec3) (s : ℚ) : Vec3 :=
  ⟨a.x + b.x * s, a.y + b.y * s, a.z + b.z * s⟩

/-- `Vector3.lerp`: `this.x += (v.x - this.x) * alpha`, component-wise. -/
def Vec3.lerp (a b : Vec3) (t : ℚ) : Vec3 :=
  ⟨a.x + (b.x - a.x) * t, a.y + (b.y - a.y) * t, a.z + (b.z - a.z) * t⟩

/-! ### Physics integrator (`src/physics.ts`) -/

/-- One entry of `Physics.objects`: `{ object, velocity, mass }`.  The
`object` field is the `THREE.Object3D` reference, modelled as a handle. -/
structure PBody where
  object : Nat
  velocity : Vec3
  mass : ℚ
deriving DecidableEq, Repr

/-- State of the `Physics` class.  `positions` is the store of the external
objects' mutable `position` vectors, indexed by object handle (the bodies
mutate `object.position` in place). -/
structure Physics where
  gravity : Vec3
  objects : List PBody
  positions : Nat → Vec3

/-- `addObject(object, mass = 1, velocity = new Vector3())`: pushes
`{ object, velocity: velocity.clone(), mass }` onto the list, unconditionally. -/
def Physics.addObject (st : Physics) (object : Nat) (mass : ℚ) (velocity : Vec3) :
    Physics :=
  { st with objects := st.objects ++ [⟨object, velocity, mass⟩] }

/-- `removeObject(object)`: `this.objects = this.objects.filter(obj => obj.object !== object)`. -/
def Physics.removeObject (st : Physics) (object : Nat) : Physics :=
  { st with objects := st.objects.filter (fun c => !(c.object == object)) }

/-- Velocity part of one `update` iteration:
`velocity.add(gravity.clone().multiplyScalar(1 / mass).multiplyScalar(dt))`. -/
def Physics.stepBody (g : Vec3) (dt : ℚ) (b : PBody) : PBody :=
  { b with velocity := b.velocity.add ((g.mulScalar (1 / b.mass)).mulScalar dt) }

/-- One `forEach` iteration of `Physics.update`: update the body's velocity,
then `object.position.addScaledVector(velocity, dt)` with the new velocity
(the position store is threaded, since several entries may share an object). -/
def Physics.updStep (g : Vec3) (dt : ℚ) (acc : List PBody × (Nat → Vec3)) (b : PBody) :
    List PBody × (Nat → Vec3) :=
  let b2 := Physics.stepBody g dt b
  (acc.1 ++ [b2],
   fun h => if h = b.object then (acc.2 b.object).addScaled b2.velocity dt else acc.2 h)

/-- `update(deltaTime)`: `dt = deltaTime / 1000`, then the per-body iteration
over all tracked bodies in order. -/
def Physics.update (st : Physics) (deltaTime : ℚ) : Physics :=
  let dt := deltaTime / 1000
  let r := st.objects.foldl (Physics.updStep st.gravity dt) ([], st.positions)
  { st with objects := r.1, positions := r.2 }

/-- First-match in-place mutation, modelling `this.objects.find(...)`
followed by mutation of the found entry. -/
def updateFirst (p : α → Bool) (f : α → α) : List α → List α
  | [] => []
  | a :: t => if p a then f a :: t else a :: updateFirst p f t

/-- `applyForce(object, force)`: on the first entry whose `object` matches by
reference, `velocity.add(force.clone().multiplyScalar(1 / mass))`; no-op when
absent. -/
def Physics.applyForce (st : Physics) (object : Nat) (force : Vec3) : Physics :=
  let upd := fun c => { c with velocity := c.velocity.add (force.mulScalar (1 / c.mass)) }
  { st with objects := updateFirst (fun c => c.object == object) upd st.objects }

/-- `setVelocity(object, velocity)`: on the first entry whose `object` matches
by reference, `velocity.copy(v)`; no-op when absent. -/
def Physics.setVelocity (st : Physics) (object : Nat) (v : Vec3) : Physics :=
  let upd := fun c => { c with velocity := v }
  { st with objects := updateFirst (fun c => c.object == object) upd st.objects }

/-! ### Animation scheduler (`Engine`) -/

/-- The animated property: `'position' | 'rotation' | 'scale'`. -/
inductive TransformProp where
  | position
  | rotation
  | scale
deriving DecidableEq, Repr

/-- Model of a `THREE.Object3D`: its three mutable transform vectors. -/
structure Obj3D where
  position : Vec3
  rotation : Vec3
  scale : Vec3
deriving DecidableEq, Repr

/-- Read `object[property]` (the read is followed by `.clone()` in the
source, which is the identity under value semantics). -/
def Obj3D.get (o : Obj3D) : TransformProp → Vec3
  | .position => o.position
  | .rotation => o.rotation
  | .scale => o.scale

/-- Write `object[property].copy(v)`. -/
def Obj3D.set (o : Obj3D) : TransformProp → Vec3 → Obj3D
  | .position, v => { o with position := v }
  | .rotation, v => { o with rotation := v }
  | .scale, v => { o with scale := v }

/-- The `ObjectAnimation` record.  `target` is the `Object3D` reference
(a handle); the optional `onUpdate` / `onComplete` callbacks are modelled by
presence flags, and the scheduler's visit log records their invocations. -/
structure ObjectAnimation where
  target : Nat
  property : TransformProp
  startValue : Vec3
  endValue : Vec3
  duration : ℚ
  startTime : ℚ
  easing : ℚ → ℚ
  hasOnUpdate : Bool
  hasOnComplete : Bool

/-- The `AnimationConfig` argument of `animateObject`. -/
structure AnimationConfig where
  duration : ℚ
  easing : Option (ℚ → ℚ)
  hasOnUpdate : Bool
  hasOnComplete : Bool

/-- State of the `Engine` class: the id-to-object registry (`Map<string,
Object3D>`, modelled as a partial map to handles), the store of the referenced
objects, and the in-flight animation list. -/
structure Engine where
  objects : String → Option Nat
  heap : Nat → Obj3D
  animations : List ObjectAnimation

/-- `linearEasing(t) = t` (the default easing). -/
def Engine.linearEasing (t : ℚ) : ℚ := t

/-- `easeInOutCubic(t) = t < 0.5 ? 4*t*t*t : 1 - Math.pow(-2*t + 2, 3) / 2`. -/
def Engine.easeInOutCubic (t : ℚ) : ℚ :=
  if t < 1 / 2 then 4 * t * t * t else 1 - (-2 * t + 2) ^ 3 / 2

/-- `easeOutCubic(t) = 1 - Math.pow(1 - t, 3)`. -/
def Engine.easeOutCubic (t : ℚ) : ℚ := 1 - (1 - t) ^ 3

/-- `animateObject(id, property, endValue, config)`.  `Date.now()` is passed
explicitly as `now`.  Returns the new state and whether the missing-id warning
was logged.  When the id does not resolve the state is unchanged; otherwise
`startValue` is cloned from the target's current `property` value and the new
task is pushed. -/
def Engine.animateObject (e : Engine) (id : String) (property : TransformProp)
    (endValue : Vec3) (config : AnimationConfig) (now : ℚ) : Engine × Bool :=
  match e.objects id with
  | none => (e, true)
  | some ref =>
      let a : ObjectAnimation :=
        { target := ref
          property := property
          startValue := (e.heap ref).get property
          endValue := endValue
          duration := config.duration
          startTime := now
          easing := config.easing.getD Engine.linearEasing
          hasOnUpdate := config.hasOnUpdate
          hasOnComplete := config.hasOnComplete }
      ({ e with animations := e.animations ++ [a] }, false)

/-- `updateObjectPosition(id, x, y, z)`: `object.position.set(x, y, z)` when
the id resolves, otherwise nothing. -/
def Engine.updateObjectPosition (e : Engine) (id : String) (x y z : ℚ) : Engine :=
  match e.objects id with
  | none => e
  | some ref =>
      let heap2 := fun h => if h = ref then { e.heap ref with position := ⟨x, y, z⟩ } else e.heap h
      { e with heap := heap2 }

/-- `progress = Math.min(elapsed / duration, 1)` with `elapsed = now - startTime`. -/
def progressOf (a : ObjectAnimation) (now : ℚ) : ℚ :=
  min ((now - a.startTime) / a.duration) 1

/-- What one `forEach` iteration of `updateAnimations` does to one task: the
value written to `target[property]`, the argument passed to `onUpdate` (when
present), and whether `onComplete` fired. -/
structure Visit where
  written : Vec3
  onUpdateArg : Option ℚ
  onCompleteFired : Bool
  completedFlag : Bool
deriving Repr

/-- One iteration of the `updateAnimations` loop over one task. -/
def visitOf (now : ℚ) (a : ObjectAnimation) : Visit :=
  let progress := progressOf a now
  let easedProgress := a.easing progress
  { written := a.startValue.lerp a.endValue easedProgress
    onUpdateArg := if a.hasOnUpdate then some progress else none
    onCompleteFired := a.hasOnComplete && decide (1 ≤ progress)
    completedFlag := decide (1 ≤ progress) }

/-- `(animation.target[animation.property] as Vector3).copy(currentValue)`:
store update at the task's target handle. -/
def writeProp (heap : Nat → Obj3D) (ref : Nat) (p : TransformProp) (v : Vec3) :
    Nat → Obj3D :=
  fun h => if h = ref then (heap ref).set p v else heap h

/-- `array.splice(i, 1)`: drop the element at index `i`. -/
def spliceAt (l : List α) (i : Nat) : List α :=
  l.take i ++ l.drop (i + 1)

/-- The indices pushed onto `completedAnimations` by the `forEach` loop,
starting from index `i`. -/
def completedIdxsFrom (p : α → Bool) : Nat → List α → List Nat
  | _, [] => []
  | i, a :: t =>
      if p a then i :: completedIdxsFrom p (i + 1) t else completedIdxsFrom p (i + 1) t

/-- The removal loop of `updateAnimations`: `for (let i = completed.length - 1;
i >= 0; i--) this.animations.splice(completed[i], 1)`. -/
def removeCompleted (l : List α) (idxs : List Nat) : List α :=
  idxs.reverse.foldl spliceAt l

/-- `updateAnimations()` at time `now` (`Date.now()` passed explicitly).
Every task is visited in order: its interpolated value is written into the
object store and its callback invocations are recorded in the returned visit
log; afterwards the completed tasks are removed by the splice loop. -/
def Engine.updateAnimations (e : Engine) (now : ℚ) : Engine × List (ObjectAnimation × Visit) :=
  let log := e.animations.map (fun a => (a, visitOf now a))
  let heap2 := e.animations.foldl
    (fun h a => writeProp h a.target a.property (visitOf now a).written) e.heap
  let completed := completedIdxsFrom (fun a => decide (1 ≤ progressOf a now)) 0 e.animations
  ({ e with heap := heap2, animations := removeCompleted e.animations completed }, log)

/-! ### Helper lemmas -/

theorem spliceAt_cons_succ (a : α) (t : List α) (i : Nat) :
    spliceAt (a :: t) (i + 1) = a :: spliceAt t i := by
  simp [spliceAt]

theorem spliceAt_cons_zero (a : α) (t : List α) :
    spliceAt (a :: t) 0 = t := by
  simp [spliceAt]

theorem foldl_spliceAt_map_succ (ys : List Nat) (a : α) (t : List α) :
    List.foldl spliceAt (a :: t) (ys.map (fun n => n + 1)) =
      a :: List.foldl spliceAt t ys := by
  induction ys generalizing t with
  | nil => rfl
  | cons y ys ih => simp [List.foldl_cons, spliceAt_cons_succ, ih]

theorem completedIdxsFrom_succ (p : α → Bool) (t : List α) (i : Nat) :
    completedIdxsFrom p (i + 1) t = (completedIdxsFrom p i t).map (fun n => n + 1) := by
  induction t generalizing i with
  | nil => rfl
  | cons a t ih =>
      by_cases h : p a <;> simp [completedIdxsFrom, h, ih]

/-- The reverse-order splice loop over exactly the indices of the entries
satisfying `p` removes exactly those entries, keeping the rest in order. -/
theorem removeCompleted_eq_filter (p : α → Bool) (l : List α) :
    removeCompleted l (completedIdxsFrom p 0 l) = l.filter (fun a => !p a) := by
  induction l with
  | nil => rfl
  | cons a t ih =>
      by_cases h : p a
      · have : completedIdxsFrom p 0 (a :: t) =
            0 :: (completedIdxsFrom p 0 t).map (fun n => n + 1) := by
          simp [completedIdxsFrom, h, completedIdxsFrom_succ]
        rw [removeCompleted, this]
        simp only [List.reverse_cons, List.foldl_append, List.foldl_cons, List.foldl_nil,
          ← List.map_reverse, foldl_spliceAt_map_succ, spliceAt_cons_zero]
        rw [← removeCompleted, ih]
        simp [List.filter_cons, h]
      · have : completedIdxsFrom p 0 (a :: t) =
            (completedIdxsFrom p 0 t).map (fun n => n + 1) := by
          simp [completedIdxsFrom, h, completedIdxsFrom_succ]
        rw [removeCompleted, this, ← List.map_reverse, foldl_spliceAt_map_succ]
        rw [← removeCompleted, ih]
        simp [List.filter_cons, h]

theorem updateFirst_of_none (p : α → Bool) (f : α → α) (l : List α)
    (h : ∀ a ∈ l, p a = false) : updateFirst p f l = l := by
  induction l with
  | nil => rfl
  | cons a t ih =>
      have ha := h a (List.mem_cons_self a t)
      simp [updateFirst, ha]
      exact ih fun b hb => h b (List.mem_cons_of_mem a hb)

theorem updateFirst_first_match (p : α → Bool) (f : α → α) (pre post : List α) (b : α)
    (hpre : ∀ c ∈ pre, p c = false) (hb : p b = true) :
    updateFirst p f (pre ++ b :: post) = pre ++ f b :: post := by
  induction pre with
  | nil => simp [updateFirst, hb]
  | cons c pre ih =>
      have hc := hpre c (List.mem_cons_self c pre)
      simp only [List.cons_append, updateFirst, hc, Bool.false_eq_true, if_false]
      rw [List.append_eq, ih fun d hd => hpre d (List.mem_cons_of_mem c hd)]

theorem map_fst_pair (f : α → β) (l : List α) :
    (l.map (fun a => (a, f a))).map Prod.fst = l := by
  induction l with
  | nil => rfl
  | cons a t ih => simp [ih]

theorem foldl_updStep_fst (g : Vec3) (dt : ℚ) (l : List PBody)
    (acc : List PBody) (pos : Nat → Vec3) :
    (l.foldl (Physics.updStep g dt) (acc, pos)).1 = acc ++ l.map (Physics.stepBody g dt) := by
  induction l generalizing acc pos with
  | nil => simp
  | cons b t ih =>
      simp only [List.foldl_cons, List.map_cons]
      rw [Physics.updStep]
      simp only [ih, List.append_assoc, List.singleton_append]

theorem foldl_updStep_snd_notmem (g : Vec3) (dt : ℚ) (l : List PBody)
    (acc : List PBody) (pos : Nat → Vec3) (h : Nat)
    (hh : ∀ c ∈ l, c.object ≠ h) :
    (l.foldl (Physics.updStep g dt) (acc, pos)).2 h = pos h := by
  induction l generalizing acc pos with
  | nil => rfl
  | cons b t ih =>
      simp only [List.foldl_cons, Physics.updStep]
      rw [ih _ _ fun c hc => hh c (List.mem_cons_of_mem b hc)]
      exact if_neg fun he => hh b (List.mem_cons_self b t) he.symm

theorem foldl_updStep_snd_tracked (g : Vec3) (dt : ℚ) (pre post : List PBody) (b : PBody)
    (acc : List PBody) (pos : Nat → Vec3)
    (hpre : ∀ c ∈ pre, c.object ≠ b.object) (hpost : ∀ c ∈ post, c.object ≠ b.object) :
    ((pre ++ b :: post).foldl (Physics.updStep g dt) (acc, pos)).2 b.object
      = (pos b.object).addScaled (Physics.stepBody g dt b).velocity dt := by
  induction pre generalizing acc pos with
  | nil =>
      simp only [List.nil_append, List.foldl_cons, Physics.updStep]
      rw [foldl_updStep_snd_notmem _ _ _ _ _ _ hpost]
      simp
  | cons c pre ih =>
      have hbc : ¬ b.object = c.object :=
        fun he => hpre c (List.mem_cons_self c pre) he.symm
      simp only [List.cons_append, List.foldl_cons, Physics.updStep]
      rw [ih _ _ fun d hd => hpre d (List.mem_cons_of_mem c hd)]
      simp [if_neg hbc]

/-! ### Concrete fixtures for witnesses and counterexamples -/

/-- A default-looking object: identity transform. -/
def obj0 : Obj3D :=
  { position := ⟨0, 0, 0⟩, rotation := ⟨0, 0, 0⟩, scale := ⟨1, 1, 1⟩ }

/-- A linear-easing animation of duration 5 starting at time 0. -/
def animW : ObjectAnimation :=
  { target := 0
    property := .position
    startValue := ⟨0, 0, 0⟩
    endValue := ⟨1, 0, 0⟩
    duration := 5
    startTime := 0
    easing := Engine.linearEasing
    hasOnUpdate := true
    hasOnComplete := true }

/-- An engine whose registry maps `"cube"` to handle 0, with `animW` in flight. -/
def engW : Engine :=
  { objects := fun s => if s = "cube" then some 0 else none
    heap := fun _ => obj0
    animations := [animW] }

/-- A linear-easing animation that starts only at time 10 (for the
before-start behaviour of `updateAnimations`). -/
def animC1 : ObjectAnimation :=
  { target := 0
    property := .position
    startValue := ⟨0, 0, 0⟩
    endValue := ⟨1, 0, 0⟩
    duration := 10
    startTime := 10
    easing := Engine.linearEasing
    hasOnUpdate := true
    hasOnComplete := true }

/-- Engine holding only `animC1`. -/
def engC1 : Engine :=
  { objects := fun s => if s = "cube" then some 0 else none
    heap := fun _ => obj0
    animations := [animC1] }

/-- An animation config with `duration = 0` and no callbacks. -/
def cfgZero : AnimationConfig :=
  { duration := 0, easing := none, hasOnUpdate := false, hasOnComplete := false }

/-- An animation config with `duration = 1000` and no callbacks. -/
def cfgW : AnimationConfig :=
  { duration := 1000, easing := none, hasOnUpdate := false, hasOnComplete := false }

/-- The default gravity vector `(0, -9.8, 0)` (`9.8 = 49/5`). -/
def gravity0 : Vec3 := ⟨0, -(49 / 5), 0⟩

/-- A single resting body of mass 1 at handle 0. -/
def bodyW1 : PBody := { object := 0, velocity := ⟨0, 0, 0⟩, mass := 1 }

/-- Physics state: default gravity, one resting unit-mass body at the origin. -/
def physW1 : Physics :=
  { gravity := gravity0, objects := [bodyW1], positions := fun _ => ⟨0, 0, 0⟩ }

/-- A resting body of mass 2 at handle 0. -/
def bodyW2 : PBody := { object := 0, velocity := ⟨0, 0, 0⟩, mass := 2 }

/-- Physics state with a single mass-2 body. -/
def physW2 : Physics :=
  { gravity := gravity0, objects := [bodyW2], positions := fun _ => ⟨0, 0, 0⟩ }

/-- Physics state in which the same handle 0 is tracked twice. -/
def physDup : Physics :=
  { gravity := gravity0, objects := [bodyW1, bodyW1], positions := fun _ => ⟨0, 0, 0⟩ }

/-! ### Claims -/

/-- C6: the easing functions are pure rational functions with
`linear(t) = t`, `easeOutCubic(t) = 1 - (1-t)^3` (so `easeOutCubic 0 = 0`
and `easeOutCubic 1 = 1`), and `easeInOutCubic(t) = 4t^3` for `t < 1/2`,
else `1 - ((-2t+2)^3)/2` (so `easeInOutCubic (1/2) = 1/2`). -/
theorem c6_easing_functions :
    (∀ t : ℚ, Engine.linearEasing t = t)
    ∧ (∀ t : ℚ, Engine.easeOutCubic t = 1 - (1 - t) ^ 3)
    ∧ Engine.easeOutCubic 0 = 0
    ∧ Engine.easeOutCubic 1 = 1
    ∧ (∀ t : ℚ, Engine.easeInOutCubic t =
        if t < 1 / 2 then 4 * t ^ 3 else 1 - (-2 * t + 2) ^ 3 / 2)
    ∧ Engine.easeInOutCubic (1 / 2) = 1 / 2 := by
  refine ⟨fun t => rfl, fun t => rfl, by norm_num [Engine.easeOutCubic],
    by norm_num [Engine.easeOutCubic], fun t => ?_, by norm_num [Engine.easeInOutCubic]⟩
  by_cases h : t < 1 / 2 <;> simp [Engine.easeInOutCubic, h] <;> ring_nf

/-- Witness for C6: the easing equations instantiated at a concrete point. -/
theorem c6_witness : Engine.linearEasing 7 = 7 :=
  c6_easing_functions.1 7

/-- C2: `update(deltaTime)` converts `dt = deltaTime / 1000` and performs one
semi-implicit Euler step for every tracked body: it adds `(gravity / mass) *
dt` to the velocity and then adds the *updated* velocity times `dt` to the
body's previous position (for a body whose handle is not shared with another
entry; untracked handles are untouched); with gravity `(0, -9.8, 0)`, mass 1,
initial velocity 0, a single `update 1000` gives velocity `(0, -9.8, 0)` and
position `(0, -9.8, 0)` exactly (`9.8 = 49/5`). -/
theorem c2_step_semi_implicit_euler :
    (∀ (st : Physics) (deltaTime : ℚ),
      (st.update deltaTime).objects = st.objects.map (fun b =>
        { b with velocity :=
            b.velocity.add ((st.gravity.mulScalar (1 / b.mass)).mulScalar (deltaTime / 1000)) }))
    ∧ (∀ (st : Physics) (deltaTime : ℚ) (pre post : List PBody) (b : PBody),
        st.objects = pre ++ b :: post →
        (∀ c ∈ pre, c.object ≠ b.object) → (∀ c ∈ post, c.object ≠ b.object) →
        (st.update deltaTime).positions b.object
          = (st.positions b.object).addScaled
              (b.velocity.add ((st.gravity.mulScalar (1 / b.mass)).mulScalar (deltaTime / 1000)))
              (deltaTime / 1000))
    ∧ (∀ (st : Physics) (deltaTime : ℚ) (h : Nat),
        (∀ c ∈ st.objects, c.object ≠ h) →
        (st.update deltaTime).positions h = st.positions h)
    ∧ (physW1.update 1000).objects.map PBody.velocity = [⟨0, -(49 / 5), 0⟩]
    ∧ (physW1.update 1000).positions 0 = ⟨0, -(49 / 5), 0⟩ := by
  refine ⟨fun st deltaTime => ?_, fun st deltaTime pre post b hsplit hpre hpost => ?_,
    fun st deltaTime h hh => ?_, ?_, ?_⟩
  · show (st.objects.foldl (Physics.updStep st.gravity (deltaTime / 1000))
        ([], st.positions)).1 = _
    rw [foldl_updStep_fst]
    rfl
  · show (st.objects.foldl (Physics.updStep st.gravity (deltaTime / 1000))
        ([], st.positions)).2 b.object = _
    rw [hsplit, foldl_updStep_snd_tracked _ _ _ _ _ _ _ hpre hpost]
    rfl
  · show (st.objects.foldl (Physics.updStep st.gravity (deltaTime / 1000))
        ([], st.positions)).2 h = _
    exact foldl_updStep_snd_notmem _ _ _ _ _ _ hh
  · norm_num [physW1, bodyW1, gravity0, Physics.update, Physics.updStep, Physics.stepBody,
      Vec3.add, Vec3.mulScalar, Vec3.addScaled]
  · norm_num [physW1, bodyW1, gravity0, Physics.update, Physics.updStep, Physics.stepBody,
      Vec3.add, Vec3.mulScalar, Vec3.addScaled]

/-- Witness for C2: the per-body Euler step instantiated on the concrete
one-body state: the velocity map, the position gain of the tracked handle 0
(over its previous position, with the updated velocity), and the untouched
untracked handle 5. -/
theorem c2_witness :
    (physW1.update 1000).objects = physW1.objects.map (fun b =>
      { b with velocity :=
          b.velocity.add ((physW1.gravity.mulScalar (1 / b.mass)).mulScalar (1000 / 1000)) })
    ∧ (physW1.update 1000).positions 0
        = (physW1.positions 0).addScaled
            (bodyW1.velocity.add
              ((physW1.gravity.mulScalar (1 / bodyW1.mass)).mulScalar (1000 / 1000)))
            (1000 / 1000)
    ∧ (physW1.update 1000).positions 5 = physW1.positions 5 :=
  ⟨c2_step_semi_implicit_euler.1 physW1 1000,
   c2_step_semi_implicit_euler.2.1 physW1 1000 [] [] bodyW1 rfl (by simp) (by simp),
   c2_step_semi_implicit_euler.2.2.1 physW1 1000 5 (by simp [physW1, bodyW1])⟩

/-- C8: `applyForce` adds `force / mass` to the velocity of the first tracked
body matching the handle, immediately and as a single impulse; it is a no-op
when the handle is untracked; with mass 2 and force `(0, 10, 0)` the velocity
gains exactly `(0, 5, 0)`. -/
theorem c8_applyForce_impulse (st : Physics) (object : Nat) (force : Vec3)
    (pre post : List PBody) (b : PBody) :
    ((∀ c ∈ st.objects, c.object ≠ object) → st.applyForce object force = st)
    ∧ (st.objects = pre ++ b :: post → (∀ c ∈ pre, c.object ≠ object) →
        b.object = object →
        (st.applyForce object force).objects =
          pre ++ { b with velocity := b.velocity.add (force.mulScalar (1 / b.mass)) } :: post)
    ∧ (physW2.applyForce 0 ⟨0, 10, 0⟩).objects.map PBody.velocity = [⟨0, 5, 0⟩] := by
  refine ⟨fun h => ?_, fun hobj hpre hb => ?_, ?_⟩
  · show { st with objects := updateFirst _ _ st.objects } = st
    rw [updateFirst_of_none _ _ _ fun c hc => by simpa using h c hc]
  · show updateFirst _ _ st.objects = _
    rw [hobj, updateFirst_first_match _ _ _ _ _ (fun c hc => by simpa using hpre c hc)
      (by simpa using hb)]
  · norm_num [physW2, bodyW2, Physics.applyForce, updateFirst, Vec3.add, Vec3.mulScalar]

/-- C9 counterexample: with the same handle tracked twice, `removeObject`
empties the list instead of removing only the first entry and leaving the
later duplicate tracked. -/
theorem c9_counterexample :
    physDup.objects = [bodyW1, bodyW1]
    ∧ bodyW1.object = 0
    ∧ (physDup.removeObject 0).objects = [] := by
  refine ⟨rfl, rfl, ?_⟩
  simp [physDup, bodyW1, Physics.removeObject]

/-- C9 (amended): `applyForce` and `setVelocity` resolve the handle by
reference equality and act on the first matching entry, but `removeObject`
removes every body whose handle matches (later duplicates included); all
three are no-ops when the handle is absent. -/
theorem c9_lookup_by_reference (st : Physics) (object : Nat) (v : Vec3)
    (pre post : List PBody) (b : PBody) :
    (st.objects = pre ++ b :: post → (∀ c ∈ pre, c.object ≠ object) →
        b.object = object →
        (st.setVelocity object v).objects = pre ++ { b with velocity := v } :: post)
    ∧ ((∀ c ∈ st.objects, c.object ≠ object) → st.setVelocity object v = st)
    ∧ (st.removeObject object).objects = st.objects.filter (fun c => !(c.object == object))
    ∧ (∀ c ∈ (st.removeObject object).objects, c.object ≠ object)
    ∧ ((∀ c ∈ st.objects, c.object ≠ object) → st.removeObject object = st) := by
  refine ⟨fun hobj hpre hb => ?_, fun h => ?_, rfl, fun c hc => ?_, fun h => ?_⟩
  · show updateFirst _ _ st.objects = _
    rw [hobj, updateFirst_first_match _ _ _ _ _ (fun c hc => by simpa using hpre c hc)
      (by simpa using hb)]
  · show { st with objects := updateFirst _ _ st.objects } = st
    rw [updateFirst_of_none _ _ _ fun c hc => by simpa using h c hc]
  · have := List.mem_filter.mp hc
    simpa using this.2
  · show { st with objects := st.objects.filter _ } = st
    rw [List.filter_eq_self.mpr fun c hc => by simpa using h c hc]

/-- C10: `addObject` appends unconditionally, so tracking the same handle
twice yields two independent entries; `update` then integrates once per
entry, so the shared object's position is advanced twice in one step
(`-9.8` per entry, `-19.6 = -98/5` in total, against `-9.8 = -49/5` for a
single entry). -/
theorem c10_duplicate_track_double_advance (st : Physics) (object : Nat) (m : ℚ) (v : Vec3) :
    ((st.addObject object m v).addObject object m v).objects
      = st.objects ++ [⟨object, v, m⟩, ⟨object, v, m⟩]
    ∧ physDup.objects = [bodyW1, bodyW1]
    ∧ (physDup.update 1000).positions 0 = ⟨0, -(98 / 5), 0⟩
    ∧ (physW1.update 1000).positions 0 = ⟨0, -(49 / 5), 0⟩ := by
  refine ⟨?_, rfl, ?_, ?_⟩
  · simp [Physics.addObject]
  · norm_num [physDup, bodyW1, gravity0, Physics.update, Physics.updStep, Physics.stepBody,
      Vec3.add, Vec3.mulScalar, Vec3.addScaled]
  · norm_num [physW1, bodyW1, gravity0, Physics.update, Physics.updStep, Physics.stepBody,
      Vec3.add, Vec3.mulScalar, Vec3.addScaled]

/-- Witness for C8: the mass-2 body at handle 0 is the first (only) match,
and the impulse adds exactly `(0, 5, 0)` to its velocity. -/
theorem c8_witness :
    (physW2.applyForce 0 ⟨0, 10, 0⟩).objects =
      [] ++ { bodyW2 with velocity := bodyW2.velocity.add ((⟨0, 10, 0⟩ : Vec3).mulScalar (1 / bodyW2.mass)) } :: [] :=
  (c8_applyForce_impulse physW2 0 ⟨0, 10, 0⟩ [] [] bodyW2).2.1 rfl (by simp) rfl

/-- Witness for C9: on the duplicated list, `setVelocity` rewrites only the
first entry and leaves the later duplicate untouched. -/
theorem c9_witness :
    (physDup.setVelocity 0 ⟨1, 2, 3⟩).objects =
      [] ++ { bodyW1 with velocity := ⟨1, 2, 3⟩ } :: [bodyW1] :=
  (c9_lookup_by_reference physDup 0 ⟨1, 2, 3⟩ [] [bodyW1] bodyW1).1 rfl (by simp) rfl

/-- C5: one call to `updateAnimations` visits every task, in order, before any
removal (the visit log covers the whole collection), and afterwards exactly
the completed tasks are removed, leaving the survivors in their original
relative order (the new list is the order-preserving filter of the old). -/
theorem c5_advance_visits_all_before_removal (e : Engine) (now : ℚ) :
    ((e.updateAnimations now).2).map Prod.fst = e.animations
    ∧ (e.updateAnimations now).1.animations
        = e.animations.filter (fun a => !(decide (1 ≤ progressOf a now)))
    ∧ List.Sublist (e.updateAnimations now).1.animations e.animations := by
  have hfilter : (e.updateAnimations now).1.animations
      = e.animations.filter (fun a => !(decide (1 ≤ progressOf a now))) := by
    simp only [Engine.updateAnimations]
    exact removeCompleted_eq_filter _ _
  refine ⟨?_, hfilter, ?_⟩
  · simp only [Engine.updateAnimations]
    exact map_fst_pair _ _
  · rw [hfilter]
    exact List.filter_sublist _

/-- Witness for C5: the visit-then-filter behaviour on the concrete engine. -/
theorem c5_witness :
    ((engW.updateAnimations 5).2).map Prod.fst = engW.animations
    ∧ (engW.updateAnimations 5).1.animations
        = engW.animations.filter (fun a => !(decide (1 ≤ progressOf a 5)))
    ∧ List.Sublist (engW.updateAnimations 5).1.animations engW.animations :=
  c5_advance_visits_all_before_removal engW 5

/-- C4: once `now` reaches `startTime + duration` (with positive duration),
the task's progress is exactly 1, `onComplete` fires on that visit (and every
task is visited exactly once per call), the task is removed from the
collection, and no later `updateAnimations` call visits it again. -/
theorem c4_completion_fires_once_then_retires (e : Engine) (a : ObjectAnimation)
    (now now2 : ℚ) (hmem : a ∈ e.animations) (hd : 0 < a.duration)
    (hnow : a.startTime + a.duration ≤ now) :
    progressOf a now = 1
    ∧ (visitOf now a).onCompleteFired = a.hasOnComplete
    ∧ ((e.updateAnimations now).2).map Prod.fst = e.animations
    ∧ a ∉ (e.updateAnimations now).1.animations
    ∧ ∀ x ∈ ((e.updateAnimations now).1.updateAnimations now2).2, x.1 ≠ a := by
  have hp : progressOf a now = 1 := by
    have h1 : (1 : ℚ) ≤ (now - a.startTime) / a.duration := by
      rw [le_div_iff₀ hd]
      linarith
    simp [progressOf, min_eq_right h1]
  have hfilter : (e.updateAnimations now).1.animations
      = e.animations.filter (fun b => !(decide (1 ≤ progressOf b now))) := by
    simp only [Engine.updateAnimations]
    exact removeCompleted_eq_filter _ _
  refine ⟨hp, ?_, ?_, ?_, ?_⟩
  · simp [visitOf, hp]
  · simp only [Engine.updateAnimations]
    exact map_fst_pair _ _
  · rw [hfilter]
    intro hmem2
    have h2 := (List.mem_filter.mp hmem2).2
    simp [hp] at h2
  · intro x hx hxa
    have hx2 : x ∈ ((e.updateAnimations now).1.animations).map
        (fun b => (b, visitOf now2 b)) := by
      simpa [Engine.updateAnimations] using hx
    rcases List.mem_map.mp hx2 with ⟨b, hb, hbeq⟩
    have hba : b = a := by
      have := congrArg Prod.fst hbeq
      simpa [hxa] using this
    rw [hfilter] at hb
    have h2 := (List.mem_filter.mp hb).2
    rw [hba] at h2
    simp [hp] at h2

/-- Witness for C4: the duration-5 task started at 0 completes at `now = 5`
and is retired; a further call at `now = 6` never visits it. -/
theorem c4_witness :
    progressOf animW 5 = 1
    ∧ (visitOf 5 animW).onCompleteFired = animW.hasOnComplete
    ∧ ((engW.updateAnimations 5).2).map Prod.fst = engW.animations
    ∧ animW ∉ (engW.updateAnimations 5).1.animations
    ∧ ∀ x ∈ ((engW.updateAnimations 5).1.updateAnimations 6).2, x.1 ≠ animW :=
  c4_completion_fires_once_then_retires engW animW 5 6 (List.mem_singleton_self animW)
    (by norm_num [animW]) (by norm_num [animW])

/-- Witness for C10: double tracking of handle 3 appends two entries to the
concrete state. -/
theorem c10_witness :
    ((physW1.addObject 3 2 ⟨0, 0, 0⟩).addObject 3 2 ⟨0, 0, 0⟩).objects
      = physW1.objects ++ [⟨3, ⟨0, 0, 0⟩, 2⟩, ⟨3, ⟨0, 0, 0⟩, 2⟩] :=
  (c10_duplicate_track_double_advance physW1 3 2 ⟨0, 0, 0⟩).1

/-- C1 counterexample: for the task starting at time 10 with `startValue =
(0,0,0)`, `endValue = (1,0,0)` and linear easing, the update at `now = 0`
(before `startTime`) writes `(-1,0,0)` into the target's position — not
`startValue` as the claim's `clamp(elapsed/duration, 0, 1)` would give:
progress is not clamped below 0. -/
theorem c1_counterexample :
    engC1.animations = [animC1]
    ∧ (0 : ℚ) < animC1.startTime
    ∧ animC1.startValue = ⟨0, 0, 0⟩
    ∧ ((engC1.updateAnimations 0).1.heap 0).position = ⟨-1, 0, 0⟩
    ∧ ((engC1.updateAnimations 0).1.heap 0).position ≠ animC1.startValue := by
  have hw : ((engC1.updateAnimations 0).1.heap 0).position = ⟨-1, 0, 0⟩ := by
    norm_num [engC1, animC1, obj0, Engine.updateAnimations, visitOf, progressOf, writeProp,
      Vec3.lerp, Engine.linearEasing, Obj3D.set, removeCompleted, completedIdxsFrom,
      spliceAt, min_def]
  refine ⟨rfl, by norm_num [animC1], rfl, hw, ?_⟩
  rw [hw]
  simp [animC1, Vec3.mk.injEq]

/-- C1 (amended): `updateAnimations(now)` computes `progress =
min((now - startTime) / duration, 1)` — clamped above only, not below — writes
`lerp(startValue, endValue, easing(progress))` into `target[property]`, and
passes the linear (un-eased) progress to `onUpdate` when present; for `now`
before `startTime` the progress is negative and the written value extrapolates
past `startValue` instead of equalling it. -/
theorem c1_advance_formula (e : Engine) (a : ObjectAnimation) (now : ℚ)
    (h : e.animations = [a]) :
    (e.updateAnimations now).1.heap
      = writeProp e.heap a.target a.property
          (a.startValue.lerp a.endValue (a.easing (min ((now - a.startTime) / a.duration) 1)))
    ∧ (e.updateAnimations now).2 = [(a, visitOf now a)]
    ∧ (visitOf now a).onUpdateArg
        = if a.hasOnUpdate then some (min ((now - a.startTime) / a.duration) 1)
          else none := by
  refine ⟨?_, ?_, ?_⟩ <;> simp [Engine.updateAnimations, h, visitOf, progressOf]

/-- Witness for C1 (amended): the formula instantiated on the concrete
single-task engine at `now = 0`. -/
theorem c1_witness :
    (engC1.updateAnimations 0).1.heap
      = writeProp engC1.heap animC1.target animC1.property
          (animC1.startValue.lerp animC1.endValue
            (animC1.easing (min ((0 - animC1.startTime) / animC1.duration) 1)))
    ∧ (engC1.updateAnimations 0).2 = [(animC1, visitOf 0 animC1)]
    ∧ (visitOf 0 animC1).onUpdateArg
        = if animC1.hasOnUpdate then some (min ((0 - animC1.startTime) / animC1.duration) 1)
          else none :=
  c1_advance_formula engC1 animC1 0 rfl

/-- C3: evaluated at the spec's failing inputs, the code performs no
configuration validation: `animateObject` with `duration = 0` registers the
task and reports no error, and `addObject` with `mass = 0` registers the
body — registration is not rejected. -/
theorem c3_no_validation_at_registration :
    cfgZero.duration = 0
    ∧ (engW.animateObject "cube" .position ⟨1, 1, 1⟩ cfgZero 100).2 = false
    ∧ (engW.animateObject "cube" .position ⟨1, 1, 1⟩ cfgZero 100).1.animations.length
        = engW.animations.length + 1
    ∧ (physW1.addObject 7 0 ⟨0, 0, 0⟩).objects.map PBody.mass = [1, 0] := by
  refine ⟨rfl, ?_, ?_, ?_⟩
  · simp [engW, Engine.animateObject]
  · simp [engW, Engine.animateObject]
  · simp [physW1, bodyW1, Physics.addObject]

/-- C7: `animateObject` with an unresolvable id logs the warning and leaves
the state untouched; with a resolvable id it reports no warning, modifies
neither the registry nor the objects, and appends one task whose `startValue`
is a copy of the target's current value of the property taken at registration
time — a copy that survives later mutation of the target (here via
`updateObjectPosition`). -/
theorem c7_schedule_resolution_and_capture (e : Engine) (id : String) (p : TransformProp)
    (endValue : Vec3) (config : AnimationConfig) (now x y z : ℚ) :
    (e.objects id = none → e.animateObject id p endValue config now = (e, true))
    ∧ ∀ ref, e.objects id = some ref →
        (e.animateObject id p endValue config now).2 = false
        ∧ (e.animateObject id p endValue config now).1.objects = e.objects
        ∧ (e.animateObject id p endValue config now).1.heap = e.heap
        ∧ ((e.animateObject id p endValue config now).1.updateObjectPosition id x y z).animations
            = e.animations ++
              [{ target := ref, property := p, startValue := (e.heap ref).get p,
                 endValue := endValue, duration := config.duration, startTime := now,
                 easing := config.easing.getD Engine.linearEasing,
                 hasOnUpdate := config.hasOnUpdate,
                 hasOnComplete := config.hasOnComplete }] := by
  constructor
  · intro h
    simp [Engine.animateObject, h]
  · intro ref h
    refine ⟨?_, ?_, ?_, ?_⟩ <;>
      simp [Engine.animateObject, h, Engine.updateObjectPosition]

/-- Witness for C7: scheduling on the engine that resolves `"cube"` to
handle 0, then moving the object, leaves the captured `startValue` intact. -/
theorem c7_witness :
    (engW.animateObject "cube" .position ⟨2, 0, 0⟩ cfgW 50).2 = false
    ∧ (engW.animateObject "cube" .position ⟨2, 0, 0⟩ cfgW 50).1.objects = engW.objects
    ∧ (engW.animateObject "cube" .position ⟨2, 0, 0⟩ cfgW 50).1.heap = engW.heap
    ∧ ((engW.animateObject "cube" .position ⟨2, 0, 0⟩ cfgW 50).1.updateObjectPosition
          "cube" 3 4 5).animations
        = engW.animations ++
          [{ target := 0, property := .position,
             startValue := (engW.heap 0).get .position, endValue := ⟨2, 0, 0⟩,
             duration := cfgW.duration, startTime := 50,
             easing := cfgW.easing.getD Engine.linearEasing,
             hasOnUpdate := cfgW.hasOnUpdate, hasOnComplete := cfgW.hasOnComplete }] :=
  (c7_schedule_resolution_and_capture engW "cube" .position ⟨2, 0, 0⟩ cfgW 50 3 4 5).2 0
    (by simp [engW])

end IDvision
